import Mathlib

/-!
# Verification of the `streaming_quotes` server against its specification

This file gives a shallow embedding of the core data structures and
operations of the `streaming_quotes` Rust crate (event timer, stream
framer, quote generator, per-connection streamer and command handler,
channel polling helpers) and proves or refutes the specification's
claims about them.

Modelling conventions:
* Rust `u32`/`u64` arithmetic is modelled on `Nat`, with an explicit
  `% 2^32` wherever the source truncates or may wrap a `u32`.
* Rust `f64` values are modelled as rationals (`ℚ`); the generator only
  adds, scales by the constant `1/64`, compares and clamps, all of which
  the rational model reflects order-faithfully.
* Fallible operations (`anyhow::Result`) are modelled with
  `Except String` / `Option`.
* `HashMap`s are modelled as association lists whose `insert` replaces
  an existing binding; iteration order in `generate_quotes` is the list
  order (the source's iteration order is arbitrary, and no claim here
  depends on it).
* The external `postcard` codec and the operating-system socket calls
  are not part of this repository; where a claim needs them they appear
  as explicit parameters (a decode function, a send-success oracle) or
  as already-decoded message values.
-/

namespace StreamingQuotes

/-- Outcome of one iteration of a worker loop: keep looping or break out. -/
inductive LoopAction where
  | cont
  | exit
deriving Repr, DecidableEq

/-- Result of a non-blocking `try_recv` on an mpsc channel
(`Ok(cmd)`, `Err(Empty)` or `Err(Disconnected)`). -/
inductive ChannelRead (α : Type) where
  | ok (cmd : α)
  | empty
  | disconnected
deriving Repr, DecidableEq

/-! ## Event timer (`src/timer.rs`) -/

/-- Tick length of the timer, in milliseconds (`TICK_MILLIS` in `timer.rs`). -/
def TICK_MILLIS : Nat := 10

/-- A registered timer event: a saturating tick counter and its bound in
milliseconds (struct `Event` in `timer.rs`). -/
structure Event where
  counter : Nat
  bound : Nat
deriving Repr, DecidableEq

/-- `Event::new`: counter starts at 0. -/
def Event.new (bound_millis : Nat) : Event :=
  { counter := 0, bound := bound_millis }

/-- `Event::tick`: increment the counter unless it already reached
`bound / TICK_MILLIS` (saturation). -/
def Event.tick (e : Event) : Event :=
  if e.counter < e.bound / TICK_MILLIS then
    { e with counter := e.counter + 1 }
  else
    e

/-- `Event::is_expired`: true iff `counter ≥ bound / TICK_MILLIS`
(Rust integer division, i.e. floor). -/
def Event.is_expired (e : Event) : Bool :=
  e.bound / TICK_MILLIS ≤ e.counter

/-- The timer's event map (`HashMap<String, Event>`), as an association list. -/
abbrev Timer := List (String × Event)

/-- `Timer::add_event`: register or replace an event, counter starting at 0. -/
def Timer.add_event (t : Timer) (event_name : String) (bound_millis : Nat) : Timer :=
  (event_name, Event.new bound_millis) :: t.filter (fun p => p.1 ≠ event_name)

/-- `Timer::sleep`, without the physical 10 ms delay (irrelevant to the
claims): every registered event's counter is ticked once. -/
def Timer.sleep (t : Timer) : Timer :=
  t.map (fun p => (p.1, p.2.tick))

/-- Iterated `Timer::sleep`. -/
def Timer.sleepK (t : Timer) : Nat → Timer
  | 0 => t
  | k + 1 => (Timer.sleep t).sleepK k

/-- Iterated `Event.tick` (the effect of `k` sleeps on one event). -/
def Event.tickK : Nat → Event → Event
  | 0, e => e
  | k + 1, e => Event.tickK k e.tick

/-- `HashMap::get` on the event map. -/
def findEvent : Timer → String → Option Event
  | [], _ => none
  | (k, v) :: rest, name => if k == name then some v else findEvent rest name

/-- `Timer::reset_event`: set the counter of an existing event to 0,
failing with `Wrong event name` if the event is absent. -/
def Timer.reset_event (t : Timer) (event_name : String) : Except String Timer :=
  match findEvent t event_name with
  | some _ =>
      .ok (t.map (fun p =>
        match p.1 == event_name with
        | true => (p.1, { p.2 with counter := 0 })
        | false => p))
  | none => .error "Wrong event name"

/-- `Timer::is_expired_event`: observe expiry, failing if the event is absent. -/
def Timer.is_expired_event (t : Timer) (event_name : String) : Except String Bool :=
  match findEvent t event_name with
  | some evt => .ok evt.is_expired
  | none => .error "Wrong event name"

/-! ## Stream framer (`src/utils.rs`) -/

/-- `StreamReader::read_from_stream`, restricted to the success path: the
bytes that the non-blocking source yielded (possibly none) are pushed onto
the back of the buffer in order. -/
def read_from_stream (buf : List Nat) (bytes : List Nat) : List Nat :=
  buf ++ bytes

/-- The pop-loop of `StreamReader::extract_chunk`: pop `n` bytes off the
front one at a time, `none` if the buffer runs out (the `?` on `pop_front`). -/
def extract_chunk_go : Nat → List Nat → Option (List Nat × List Nat)
  | 0, r => some ([], r)
  | _ + 1, [] => none
  | n + 1, b :: rest => (extract_chunk_go n rest).map (fun p => (b :: p.1, p.2))

/-- `StreamReader::extract_chunk`: `none` when fewer than `chunk_len` bytes
are buffered, otherwise the first `chunk_len` bytes together with the
remaining buffer. -/
def extract_chunk (buf : List Nat) (chunk_len : Nat) : Option (List Nat × List Nat) :=
  if buf.length < chunk_len then none
  else extract_chunk_go chunk_len buf

lemma extract_chunk_go_eq :
    ∀ (n : Nat) (r : List Nat), n ≤ r.length →
      extract_chunk_go n r = some (r.take n, r.drop n) := by
  intro n
  induction n with
  | zero => intro r _; simp [extract_chunk_go]
  | succ m ih =>
      intro r hr
      cases r with
      | nil => simp at hr
      | cons b rest =>
          simp only [List.length_cons, Nat.succ_le_succ_iff] at hr
          simp [extract_chunk_go, ih rest hr]

lemma foldl_read_from_stream (chunks : List (List Nat)) :
    ∀ a : List Nat, List.foldl read_from_stream a chunks = a ++ chunks.flatten := by
  induction chunks with
  | nil => intro a; simp [List.flatten]
  | cons c rest ih =>
      intro a
      simp [read_from_stream, List.foldl_cons, ih, List.flatten]

/-! ## Quote generator (`src/quote.rs`) -/

/-- Modulus of Rust `u32` arithmetic. -/
def U32_MOD : Nat := 2 ^ 32

/-- A ticker record as it appears in the JSON config: each required field
is `none` when absent or of the wrong JSON type (`as_str` / `as_f64` /
`as_u64` returning `None`). -/
structure TickerJson where
  name : Option String
  upper_bound_price : Option ℚ
  upper_bound_volume : Option Nat
  lower_bound_volume : Option Nat
deriving Repr, DecidableEq

/-- Generator-internal ticker state (struct `Ticker` in `quote.rs`). -/
structure Ticker where
  upper_bound_price : ℚ
  upper_bound_volume : Nat
  lower_bound_volume : Nat
  current_price : ℚ
deriving Repr, DecidableEq

/-- `Ticker::from_json`: all three numeric fields must be present;
`as_u64()? as u32` truncates to 32 bits; `current_price` starts at
`upper_bound_price / 2`. -/
def Ticker.from_json (j : TickerJson) : Option Ticker :=
  match j.upper_bound_price with
  | none => none
  | some ubp =>
      match j.upper_bound_volume, j.lower_bound_volume with
      | some uv, some lv =>
          some { upper_bound_price := ubp
                 upper_bound_volume := uv % U32_MOD
                 lower_bound_volume := lv % U32_MOD
                 current_price := ubp / 2 }
      | _, _ => none

/-- `Ticker::price_range`. -/
def Ticker.price_range (t : Ticker) : ℚ := t.upper_bound_price

/-- `Ticker::volume_range` (`u32` subtraction; on `lower > upper` the Rust
code would panic in debug builds — Nat subtraction truncates to 0 instead,
which no claim below relies on). -/
def Ticker.volume_range (t : Ticker) : Nat :=
  t.upper_bound_volume - t.lower_bound_volume

/-- `HashMap::insert` on the ticker map: replace any existing binding. -/
def insertTicker (m : List (String × Ticker)) (k : String) (v : Ticker) :
    List (String × Ticker) :=
  (k, v) :: m.filter (fun p => p.1 ≠ k)

/-- State of `QuoteGenerator` (ticker map and shared timestamp counter). -/
structure QGen where
  tickers : List (String × Ticker)
  timestamp_counter : Nat
deriving Repr, DecidableEq

/-- The config loop of `QuoteGenerator::new`: for each record, the `name`
field is required first, then the numeric fields via `Ticker::from_json`;
duplicates collapse (last wins). No other validation is performed. -/
def buildTickers : List TickerJson → List (String × Ticker) →
    Except String (List (String × Ticker))
  | [], acc => .ok acc
  | j :: rest, acc =>
      match j.name with
      | none => .error "Can't read ticker name from config"
      | some nm =>
          match Ticker.from_json j with
          | none => .error "Can't read ticker params from config"
          | some tk => buildTickers rest (insertTicker acc nm tk)

/-- `QuoteGenerator::new`, modelled on the already-parsed JSON array
(`serde_json` parse failures are outside this repository): build the
ticker map and start the timestamp counter at 1. -/
def QuoteGenerator.new (cfg : List TickerJson) : Except String QGen :=
  (buildTickers cfg []).map (fun tks => { tickers := tks, timestamp_counter := 1 })

/-- One generated quote (struct `StockQuote` in `quote.rs`). -/
structure StockQuote where
  ticker : String
  price : ℚ
  volume : Nat
  timestamp : Nat
deriving Repr, DecidableEq

/-- The body of the per-ticker loop of `QuoteGenerator::generate_quotes`,
for one ticker, given the two random draws of that iteration: `p` is the
`Normal(0, 0.5)` sample, `v` the uniform `u32` sample. The price is moved
by `(price_range / 64) * p`, clamped below at 0 and then above at
`upper_bound_price`, and written back to `current_price`; the volume is
`v % volume_range + lower_bound_volume` in `u32` arithmetic. -/
def quoteStep (name : String) (tk : Ticker) (p : ℚ) (v : Nat) (ts : Nat) :
    StockQuote × Ticker :=
  let price0 := tk.current_price + (tk.price_range / 64) * p
  let price1 := if price0 < 0 then 0 else price0
  let price2 := if tk.upper_bound_price < price1 then tk.upper_bound_price else price1
  let vol := (v % tk.volume_range + tk.lower_bound_volume) % U32_MOD
  ({ ticker := name, price := price2, volume := vol, timestamp := ts },
   { tk with current_price := price2 })

/-- The iteration over the ticker map in `generate_quotes`: one quote per
ticker, all stamped with the same `ts`; `draws i` supplies the random
samples of the `i`-th iteration; the updated tickers are returned alongside. -/
def genGo : List (String × Ticker) → (Nat → ℚ × Nat) → Nat → Nat →
    List StockQuote × List (String × Ticker)
  | [], _, _, _ => ([], [])
  | (n, tk) :: rest, draws, ts, i =>
      let r := quoteStep n tk (draws i).1 (draws i).2 ts
      let tail := genGo rest draws ts (i + 1)
      (r.1 :: tail.1, (n, r.2) :: tail.2)

/-- `QuoteGenerator::generate_quotes`: produce one batch (one quote per
configured ticker, all carrying `timestamp_counter`), then increment the
shared counter exactly once. -/
def QGen.generate_quotes (g : QGen) (draws : Nat → ℚ × Nat) :
    List StockQuote × QGen :=
  let r := genGo g.tickers draws g.timestamp_counter 0
  (r.1, { tickers := r.2, timestamp_counter := g.timestamp_counter + 1 })

/-! ## Channel polling and worker control (`quotes_server.rs`, `quote.rs`,
`quotes_client.rs`) -/

/-- `ControlCmd` of the server (`Stop` / `Quotes(TickerReqMessage)` / `Noop`). -/
inductive ControlCmd where
  | stop
  | quotes (port : Nat) (tickers : List String)
  | noop
deriving Repr, DecidableEq

/-- `GeneratorCmd` (`Stop` only). -/
inductive GeneratorCmd where
  | stop
deriving Repr, DecidableEq

/-- `ClientCmd` (`Stop` only). -/
inductive ClientCmd where
  | stop
deriving Repr, DecidableEq

/-- `cmd_from_channel` in `quotes_server.rs`: a disconnected channel maps
to `Stop`, an empty one to `Noop`. -/
def cmd_from_channel : ChannelRead ControlCmd → ControlCmd
  | .ok cmd => cmd
  | .disconnected => .stop
  | .empty => .noop

/-- The `cmd` branch of the server root loop: `Stop` breaks, anything else
is ignored. -/
def server_root_cmd_step (c : ControlCmd) : LoopAction :=
  match c with
  | .stop => .exit
  | _ => .cont

/-- The `cmd` branch of the Command Handler loop: `Stop` breaks, anything
else is ignored. -/
def handler_cmd_step (c : ControlCmd) : LoopAction :=
  match c with
  | .stop => .exit
  | _ => .cont

/-- The generator worker's control poll (`quote.rs`): `Ok(Stop)` and
`Err(Disconnected)` both break the loop, `Err(Empty)` continues. -/
def generator_cmd_poll : ChannelRead GeneratorCmd → LoopAction
  | .ok .stop => .exit
  | .disconnected => .exit
  | .empty => .cont

/-- `is_stop_cmd` in `quotes_client.rs`: `Ok(Stop)` and `Err(Disconnected)`
yield `true`, `Err(Empty)` yields `false`. -/
def is_stop_cmd : ChannelRead ClientCmd → Bool
  | .ok .stop => true
  | .disconnected => true
  | .empty => false

/-- The `cmd` branch of the client workers: break iff `is_stop_cmd`. -/
def client_cmd_step (r : ChannelRead ClientCmd) : LoopAction :=
  if is_stop_cmd r then .exit else .cont

/-! ## The streamer callback (`QuotesSender::handle` in `quotes_server.rs`) -/

/-- `QuotesSender::handle`, with the socket abstracted by a send-success
oracle `sendOk` (`send_to` on a UDP socket; `postcard::to_slice` of a
`Quote` message into the 100-byte buffer is total by the protocol's size
commitment). Quotes whose ticker is not in the subscription set are
skipped; each remaining quote is sent in order; the first failing send
makes `handle` return that error via `?`, abandoning the rest of the
batch. The list of quotes actually sent is returned alongside the result. -/
def QuotesSender.handle (need : List String) (sendOk : StockQuote → Bool) :
    List StockQuote → List StockQuote × Except String Unit
  | [] => ([], .ok ())
  | q :: rest =>
      match need.contains q.ticker with
      | false => QuotesSender.handle need sendOk rest
      | true =>
          match sendOk q with
          | true =>
              let r := QuotesSender.handle need sendOk rest
              (q :: r.1, r.2)
          | false => ([], .error "send error")

/-- The callback branch of the generator worker loop (`quote.rs` lines
210–218): when a callback is queued, the worker generates a batch, invokes
the callback and discards its result (`let _ = callback.handle(...)`);
the returned action records that the loop continues in every case. -/
def generator_callback_poll (cb : ChannelRead (List String × (StockQuote → Bool)))
    (quotes : List StockQuote) :
    Option (List StockQuote × Except String Unit) × LoopAction :=
  match cb with
  | .ok sender => (some (QuotesSender.handle sender.1 sender.2 quotes), .cont)
  | _ => (none, .cont)

/-! ## Wire messages (`protocol.rs`) -/

/-- The `Message` tagged union of `protocol.rs`; payloads are carried in
already-decoded form (the `postcard` byte codec is external to this
repository, so decoding appears as an explicit parameter where needed). -/
inductive Msg where
  | quote (q : StockQuote)
  | tickers (port : Nat) (tickers : List String)
  | ping
  | pong
  | unknown
deriving Repr, DecidableEq

/-! ## Quote streamer (`QuotesStream` in `quotes_server.rs`) -/

/-- `PING_WAIT_MILLIS / CHECK_PING_MILLIS` = 40000 / 100. -/
def PING_WAIT_TICKS : Nat := 40000 / 100

/-- Mutable state of the streamer loop: `cur_client_port`, `need_quotes`
and `wait_ping_counter`. -/
structure StreamerSt where
  cur_client_port : Option Nat
  need_quotes : List String
  wait_ping_counter : Nat
deriving Repr, DecidableEq

/-- Initial streamer state: no subscription, silence counter 0. -/
def streamerInit : StreamerSt :=
  { cur_client_port := none, need_quotes := [], wait_ping_counter := 0 }

/-- Environment of one iteration of the streamer loop: which timer events
expired after this tick, what the control channel holds, and the decoded
datagram (with sender address) available on the UDP socket, if any.
A datagram whose bytes fail to decode behaves exactly like a decoded
non-`Ping` message (both make `check_ping` return an error), so it is
represented by `Msg.unknown`. -/
structure StreamerInput where
  cmdExpired : Bool
  cmdRead : ChannelRead ControlCmd
  pingExpired : Bool
  datagram : Option (Msg × Nat)
  streamExpired : Bool

/-- Everything the streamer's thread emits to the outside world:
`Pong` datagrams sent from `check_ping`, and callback objects submitted to
the generator (through which quote datagrams are later sent). -/
inductive StreamerOut where
  | pongTo (addr : Nat)
  | submitCallback (port : Nat) (tickers : List String)
deriving Repr, DecidableEq

/-- The `cmd` branch of the streamer loop: `Stop` breaks; `Quotes(req)`
replaces the subscription (`cur_client_port`, `need_quotes`); `Noop` is
ignored. -/
def streamer_handle_cmd (st : StreamerSt) : ControlCmd → StreamerSt × LoopAction
  | .stop => (st, .exit)
  | .quotes p ts => ({ st with cur_client_port := some p, need_quotes := ts }, .cont)
  | .noop => (st, .cont)

/-- `QuotesStream::check_ping`: no datagram (would-block / connection-reset
/ empty packet) is `Ok(false)` with nothing sent; a decoded `Ping` logs and
sends `Pong` back to the sender, `Ok(true)`; any other (or undecodable)
message is an error. -/
def check_ping (datagram : Option (Msg × Nat)) :
    Except String (Bool × Option StreamerOut) :=
  match datagram with
  | none => .ok (false, none)
  | some (.ping, addr) => .ok (true, some (.pongTo addr))
  | some _ => .error "Wrong message"

/-- The `stream` branch of the streamer loop: if a subscription is active
(`cur_client_port` is set) submit a freshly built `QuotesSender` callback
(capturing the port and the subscribed tickers) to the generator. -/
def streamer_stream_phase (st : StreamerSt) (outs : List StreamerOut)
    (streamExpired : Bool) : StreamerSt × List StreamerOut × LoopAction :=
  if streamExpired then
    match st.cur_client_port with
    | some p => (st, outs ++ [.submitCallback p st.need_quotes], .cont)
    | none => (st, outs, .cont)
  else
    (st, outs, .cont)

/-- The `check_ping` branch of the streamer loop: run `check_ping` (an
error breaks the loop), update the silence counter (`wait_ping_counter`,
reset on any received ping, incremented on an empty tick), break when it
reaches `PING_WAIT_TICKS`, and otherwise fall through to the stream tick. -/
def streamer_ping_phase (st : StreamerSt) (dg : Option (Msg × Nat)) (se : Bool) :
    StreamerSt × List StreamerOut × LoopAction :=
  match check_ping dg with
  | .error _ => (st, [], .exit)
  | .ok (got, out) =>
      let st2 :=
        { st with wait_ping_counter := if got then 0 else st.wait_ping_counter + 1 }
      let outs := match out with | some o => [o] | none => []
      if PING_WAIT_TICKS ≤ st2.wait_ping_counter then (st2, outs, .exit)
      else streamer_stream_phase st2 outs se

/-- One iteration of the streamer loop body (`QuotesStream::start`, lines
148–205): command poll, then ping check with the silence counter and the
`PING_WAIT` liveness break, then the stream tick. -/
def streamerStep (st : StreamerSt) (inp : StreamerInput) :
    StreamerSt × List StreamerOut × LoopAction :=
  let c1 :=
    if inp.cmdExpired then streamer_handle_cmd st (cmd_from_channel inp.cmdRead)
    else (st, .cont)
  match c1.2 with
  | .exit => (c1.1, [], .exit)
  | .cont =>
      if inp.pingExpired then streamer_ping_phase c1.1 inp.datagram inp.streamExpired
      else streamer_stream_phase c1.1 [] inp.streamExpired

/-- Run the streamer loop over a list of per-iteration environments,
collecting every output, stopping early when the loop breaks. -/
def streamerRun : StreamerSt → List StreamerInput → StreamerSt × List StreamerOut
  | st, [] => (st, [])
  | st, inp :: rest =>
      let r := streamerStep st inp
      match r.2.2 with
      | .exit => (r.1, r.2.1)
      | .cont =>
          let tail := streamerRun r.1 rest
          (tail.1, r.2.1 ++ tail.2)

/-- True iff the control channel never yields a `Quotes` command in the
given run. -/
def neverQuotes (inputs : List StreamerInput) : Bool :=
  inputs.all (fun i =>
    match i.cmdRead with
    | .ok (.quotes _ _) => false
    | _ => true)

/-! ## Command handler (`CommandHandler` in `quotes_server.rs`) -/

/-- `HandlerState`: waiting for the 4-byte big-endian length prefix, or for
a body of `len` bytes. -/
inductive HandlerState where
  | waitPackLen
  | waitPack (len : Nat)
deriving Repr, DecidableEq

/-- Result of one `check_tcp_cmd` firing of the handler loop: the new
framing state and buffer, the command (if any) forwarded to the streamer,
and whether the loop keeps running (`alive = false` means the handler
broke out or returned an error). -/
structure HandlerTickResult where
  state : HandlerState
  buf : List Nat
  forwarded : Option (Nat × List String)
  alive : Bool
deriving Repr, DecidableEq

/-- `u32::from_be_bytes` on the 4 extracted bytes. -/
def u32_from_be (a b c d : Nat) : Nat :=
  ((a * 256 + b) * 256 + c) * 256 + d

/-- One `check_tcp_cmd` firing of the Command Handler (`CommandHandler::
start`, lines 269–316), parameterised by the `postcard` decoder `dec` and
the bytes `newBytes` that `read_from_stream` pulled off the socket this
tick. In `WaitPackLen`, missing bytes `continue` (state kept); on success
the state becomes `WaitPack(len)`. In `WaitPack(len)`, missing bytes hit
the `else` branch that logs `Can't receive full packet` and `break`s; on
success the body is decoded, a `Tickers` message is forwarded as a
`Quotes` command, and any other decode outcome ends the handler. -/
def handlerTick (dec : List Nat → Except Unit Msg) (st : HandlerState)
    (buf newBytes : List Nat) : HandlerTickResult :=
  let buf1 := read_from_stream buf newBytes
  match st with
  | .waitPackLen =>
      match extract_chunk buf1 4 with
      | none => { state := .waitPackLen, buf := buf1, forwarded := none, alive := true }
      | some (bin, rest) =>
          match bin with
          | [a, b, c, d] =>
              { state := .waitPack (u32_from_be a b c d), buf := rest,
                forwarded := none, alive := true }
          | _ => { state := .waitPackLen, buf := rest, forwarded := none, alive := false }
  | .waitPack len =>
      match extract_chunk buf1 len with
      | none => { state := .waitPack len, buf := buf1, forwarded := none, alive := false }
      | some (bin, rest) =>
          match dec bin with
          | .ok (.tickers p ts) =>
              { state := .waitPackLen, buf := rest, forwarded := some (p, ts), alive := true }
          | _ => { state := .waitPack len, buf := rest, forwarded := none, alive := false }

/-! ## Concrete inputs used by witnesses and counterexamples -/

/-- A configuration with all required fields present and well-typed but
`lower_bound_volume = 10 ≥ 5 = upper_bound_volume`. -/
def cfgBad : List TickerJson :=
  [{ name := some "A", upper_bound_price := some 5,
     upper_bound_volume := some 5, lower_bound_volume := some 10 }]

/-- A quote with ticker "A". -/
def qA : StockQuote := { ticker := "A", price := 1, volume := 1, timestamp := 1 }

/-- A quote with ticker "B". -/
def qB : StockQuote := { ticker := "B", price := 1, volume := 1, timestamp := 1 }

/-- A send oracle under which only sends of ticker "A" fail. -/
def sendFailOnlyA : StockQuote → Bool := fun q => q.ticker != "A"

/-- A one-ticker generator state. -/
def g0 : QGen :=
  { tickers := [("A", { upper_bound_price := 100, upper_bound_volume := 10,
                        lower_bound_volume := 2, current_price := 50 })],
    timestamp_counter := 1 }

/-- Random draws: normal sample 0, uniform sample 7. -/
def draws0 : Nat → ℚ × Nat := fun _ => (0, 7)

/-- The (original ticker, (quote, updated ticker)) triple produced by
`g0.generate_quotes draws0` for its only ticker. -/
def x0 : (String × Ticker) × (StockQuote × (String × Ticker)) :=
  (("A", { upper_bound_price := 100, upper_bound_volume := 10,
           lower_bound_volume := 2, current_price := 50 }),
   ({ ticker := "A", price := 50, volume := 9, timestamp := 1 },
    ("A", { upper_bound_price := 100, upper_bound_volume := 10,
            lower_bound_volume := 2, current_price := 50 })))

/-- A streamer-loop iteration in which only `check_ping` fires and a `Ping`
datagram from address 7 is waiting; the control channel is empty. -/
def pingOnlyInput : StreamerInput :=
  { cmdExpired := false, cmdRead := .empty, pingExpired := true,
    datagram := some (.ping, 7), streamExpired := false }

/-! # Theorems

Supporting lemmas first, then one theorem per claim (with witnesses and
counterexamples where required).
-/

/-! ## Timer lemmas -/

lemma findEvent_sleep (t : Timer) (name : String) :
    findEvent (Timer.sleep t) name = (findEvent t name).map Event.tick := by
  induction t with
  | nil => simp [Timer.sleep, findEvent]
  | cons p rest ih =>
      obtain ⟨k, v⟩ := p
      cases h : (k == name) with
      | true => simp [Timer.sleep, findEvent, h]
      | false => simpa [Timer.sleep, findEvent, h] using ih

lemma findEvent_sleepK (k : Nat) :
    ∀ (t : Timer) (name : String),
      findEvent (Timer.sleepK t k) name = (findEvent t name).map (Event.tickK k) := by
  induction k with
  | zero =>
      intro t name
      rw [show Timer.sleepK t 0 = t from rfl]
      cases h : findEvent t name <;> simp [h, Event.tickK]
  | succ m ih =>
      intro t name
      show findEvent (Timer.sleepK (Timer.sleep t) m) name = _
      rw [ih (Timer.sleep t) name, findEvent_sleep]
      cases findEvent t name with
      | none => rfl
      | some e => rfl

lemma tickK_counter :
    ∀ (k c b : Nat), c ≤ b / TICK_MILLIS →
      Event.tickK k { counter := c, bound := b }
        = { counter := min (c + k) (b / TICK_MILLIS), bound := b } := by
  intro k
  induction k with
  | zero =>
      intro c b hc
      simp only [Event.tickK]
      congr 1
      omega
  | succ m ih =>
      intro c b hc
      show Event.tickK m (Event.tick { counter := c, bound := b }) = _
      by_cases h : c < b / TICK_MILLIS
      · rw [show Event.tick { counter := c, bound := b }
              = { counter := c + 1, bound := b } from by simp [Event.tick, h]]
        rw [ih (c + 1) b (by omega)]
        congr 1
        omega
      · rw [show Event.tick { counter := c, bound := b }
              = { counter := c, bound := b } from by simp [Event.tick, h]]
        rw [ih c b hc]
        congr 1
        omega

lemma findEvent_reset_map (t : Timer) (name : String) :
    findEvent (t.map (fun p =>
        match p.1 == name with
        | true => (p.1, { p.2 with counter := 0 })
        | false => p)) name
      = (findEvent t name).map (fun e => { e with counter := 0 }) := by
  induction t with
  | nil => simp [findEvent]
  | cons p rest ih =>
      obtain ⟨k, v⟩ := p
      cases h : (k == name) with
      | true => simp [findEvent, h]
      | false => simpa [findEvent, h] using ih

/-- C4 (amended; the claim's ceiling is in fact the source's floor
division): after registering an event with bound `bound` and sleeping `k`
times, the counter is `min k (bound / TICK_MILLIS)` (each sleep increments
it by one, saturating at `bound / TICK_MILLIS`), and `is_expired_event` is
true iff `k ≥ bound / TICK_MILLIS`; likewise after a `reset_event` of a
registered event with bound `e.bound`. -/
theorem timer_expiry_floor (t : Timer) (name : String) (bound k : Nat) :
    findEvent (Timer.sleepK (Timer.add_event t name bound) k) name
      = some { counter := min k (bound / TICK_MILLIS), bound := bound }
    ∧ Timer.is_expired_event (Timer.sleepK (Timer.add_event t name bound) k) name
      = .ok (decide (bound / TICK_MILLIS ≤ k))
    ∧ (∀ (e : Event) (t' : Timer), findEvent t name = some e →
        Timer.reset_event t name = .ok t' →
        Timer.is_expired_event (Timer.sleepK t' k) name
          = .ok (decide (e.bound / TICK_MILLIS ≤ k))) := by
  have hadd : findEvent (Timer.add_event t name bound) name = some (Event.new bound) := by
    simp [Timer.add_event, findEvent]
  have hlk : findEvent (Timer.sleepK (Timer.add_event t name bound) k) name
      = some { counter := min (0 + k) (bound / TICK_MILLIS), bound := bound } := by
    rw [findEvent_sleepK, hadd]
    simp only [Option.map_some']
    rw [show Event.new bound = { counter := 0, bound := bound } from rfl,
      tickK_counter k 0 bound (Nat.zero_le _)]
  refine ⟨by simpa using hlk, ?_, ?_⟩
  · rw [Timer.is_expired_event, hlk]
    simp only [Event.is_expired]
    congr 1
    rw [decide_eq_decide]
    omega
  · intro e t' he hr
    rw [Timer.reset_event, he] at hr
    have ht' : t' = t.map (fun p =>
        match p.1 == name with
        | true => (p.1, { p.2 with counter := 0 })
        | false => p) := by
      cases hr
      rfl
    have hlk' : findEvent (Timer.sleepK t' k) name
        = some { counter := min (0 + k) (e.bound / TICK_MILLIS), bound := e.bound } := by
      rw [findEvent_sleepK, ht', findEvent_reset_map, he]
      simp only [Option.map_some']
      rw [show ({ e with counter := 0 } : Event)
            = { counter := 0, bound := e.bound } from rfl,
        tickK_counter k 0 e.bound (Nat.zero_le _)]
    rw [Timer.is_expired_event, hlk']
    simp only [Event.is_expired]
    congr 1
    rw [decide_eq_decide]
    omega

/-- Witness for `timer_expiry_floor`: concrete run exercising the reset
branch — an event with bound 15 ms is registered, reset, and after two
sleeps it is expired (15 / 10 = 1 ≤ 2). -/
theorem timer_expiry_floor_witness :
    Timer.is_expired_event
      (Timer.sleepK ([("A", { counter := 0, bound := 15 })] : Timer) 2) "A"
      = .ok true := by
  have h := (timer_expiry_floor (Timer.add_event [] "A" 15) "A" 15 2).2.2
    { counter := 0, bound := 15 }
    ([("A", { counter := 0, bound := 15 })] : Timer)
    (by rfl) (by rfl)
  simpa using h

/-- C4 (counterexample to the claim as stated): for `bound_ms = 15` the
claimed expiry threshold `⌈15 / 10⌉ = 2` disagrees with the code: after a
single sleep (`k = 1 < 2`) `is_expired_event` already returns true. -/
theorem timer_expiry_ceil_cex :
    Timer.is_expired_event (Timer.sleepK (Timer.add_event [] "A" 15) 1) "A" = .ok true
    ∧ 1 < (15 + TICK_MILLIS - 1) / TICK_MILLIS := by
  constructor
  · rfl
  · decide

/-- C10: an event whose bound is below one tick (`bound_ms < TICK_MILLIS`)
is expired immediately after `add_event`, before any `sleep`: the threshold
`bound_ms / TICK_MILLIS` is 0 and the fresh counter is 0. -/
theorem add_event_small_bound_expired (t : Timer) (name : String) (bound : Nat)
    (h : bound < TICK_MILLIS) :
    Timer.is_expired_event (Timer.add_event t name bound) name = .ok true := by
  have h0 : bound / TICK_MILLIS = 0 := Nat.div_eq_of_lt h
  simp [Timer.add_event, Timer.is_expired_event, findEvent, Event.new,
    Event.is_expired, h0]

/-- Witness for `add_event_small_bound_expired` at `bound_ms = 5`. -/
theorem add_event_small_bound_expired_witness :
    Timer.is_expired_event (Timer.add_event [] "A" 5) "A" = .ok true :=
  add_event_small_bound_expired [] "A" 5 (by decide)

/-! ## Stream framer: C7 -/

/-- C7: feeding any sequence of chunks through `read_from_stream`
concatenates them in order; `extract_chunk n` is `none` exactly when fewer
than `n` bytes are buffered (never a partial result) and otherwise returns
the first `n` fed bytes in order, leaving the remaining bytes in order. -/
theorem extract_chunk_spec (chunks : List (List Nat)) (n : Nat) :
    List.foldl read_from_stream [] chunks = chunks.flatten
    ∧ (chunks.flatten.length < n →
        extract_chunk (List.foldl read_from_stream [] chunks) n = none)
    ∧ (n ≤ chunks.flatten.length →
        extract_chunk (List.foldl read_from_stream [] chunks) n
          = some (chunks.flatten.take n, chunks.flatten.drop n)) := by
  have hb := foldl_read_from_stream chunks []
  simp only [List.nil_append] at hb
  refine ⟨hb, ?_, ?_⟩
  · intro h
    rw [hb, extract_chunk, if_pos h]
  · intro h
    rw [hb, extract_chunk, if_neg (by omega)]
    exact extract_chunk_go_eq n _ h

/-- Witness for `extract_chunk_spec`: two fed chunks, a 4-byte extraction
crossing the chunk boundary. -/
theorem extract_chunk_spec_witness :
    extract_chunk (List.foldl read_from_stream [] [[1, 2], [3, 4, 5]]) 4
      = some ([1, 2, 3, 4], [5]) := by
  have h := (extract_chunk_spec [[1, 2], [3, 4, 5]] 4).2.2 (by decide)
  simpa using h

/-! ## Shutdown fan-in: C9 -/

/-- C9: in every worker that polls a control channel (server root, Command
Handler, Streamer, generator worker, client workers), a disconnected
channel produces exactly the behaviour of an explicit `Stop`: the loop
breaks. -/
theorem disconnected_is_stop :
    cmd_from_channel ChannelRead.disconnected = ControlCmd.stop
    ∧ (∀ st : StreamerSt,
        streamer_handle_cmd st (cmd_from_channel ChannelRead.disconnected)
          = streamer_handle_cmd st (cmd_from_channel (ChannelRead.ok ControlCmd.stop))
        ∧ streamer_handle_cmd st (cmd_from_channel ChannelRead.disconnected)
          = (st, LoopAction.exit))
    ∧ server_root_cmd_step (cmd_from_channel ChannelRead.disconnected) = LoopAction.exit
    ∧ server_root_cmd_step (cmd_from_channel (ChannelRead.ok ControlCmd.stop)) = LoopAction.exit
    ∧ handler_cmd_step (cmd_from_channel ChannelRead.disconnected) = LoopAction.exit
    ∧ handler_cmd_step (cmd_from_channel (ChannelRead.ok ControlCmd.stop)) = LoopAction.exit
    ∧ generator_cmd_poll ChannelRead.disconnected = LoopAction.exit
    ∧ generator_cmd_poll (ChannelRead.ok GeneratorCmd.stop) = LoopAction.exit
    ∧ is_stop_cmd ChannelRead.disconnected = is_stop_cmd (ChannelRead.ok ClientCmd.stop)
    ∧ client_cmd_step ChannelRead.disconnected = LoopAction.exit
    ∧ client_cmd_step (ChannelRead.ok ClientCmd.stop) = LoopAction.exit :=
  ⟨rfl, fun st => ⟨rfl, rfl⟩, rfl, rfl, rfl, rfl, rfl, rfl, rfl, rfl, rfl⟩

/-! ## Config validation: C2 -/

lemma buildTickers_ok_of_fields_present :
    ∀ (cfg : List TickerJson) (acc : List (String × Ticker)),
      (∀ j ∈ cfg, j.name.isSome ∧ j.upper_bound_price.isSome
        ∧ j.upper_bound_volume.isSome ∧ j.lower_bound_volume.isSome) →
      (buildTickers cfg acc).isOk = true := by
  intro cfg
  induction cfg with
  | nil => intro acc _; rfl
  | cons j rest ih =>
      intro acc h
      obtain ⟨hn, hp, hv, hl⟩ := h j (List.mem_cons_self j rest)
      obtain ⟨nm, hnm⟩ := Option.isSome_iff_exists.mp hn
      obtain ⟨ubp, hubp⟩ := Option.isSome_iff_exists.mp hp
      obtain ⟨uv, huv⟩ := Option.isSome_iff_exists.mp hv
      obtain ⟨lv, hlv⟩ := Option.isSome_iff_exists.mp hl
      have hfj : Ticker.from_json j = some ⟨ubp, uv % U32_MOD, lv % U32_MOD, ubp / 2⟩ := by
        rw [Ticker.from_json, hubp, huv, hlv]
      rw [buildTickers, hnm, hfj]
      exact ih _ (fun j' hj' => h j' (List.mem_cons_of_mem _ hj'))

/-- C2 (counterexample to the claim as stated): `cfgBad` has every required
field present and well-typed and `lower_bound_volume = 10 ≥ 5 =
upper_bound_volume`, yet `QuoteGenerator::new` succeeds — no `ConfigError`
is produced. -/
theorem new_accepts_bad_volume_bounds_cex :
    (QuoteGenerator.new cfgBad).isOk = true
    ∧ cfgBad = [⟨some "A", some 5, some 5, some 10⟩]
    ∧ (10 : Nat) ≥ 5 := by
  refine ⟨rfl, rfl, by omega⟩

/-- C2 (amended): `QuoteGenerator::new` performs no volume-bound
validation: it succeeds for every configuration whose records all have the
required fields present and well-typed, including configurations where
some record has `lower_bound_volume ≥ upper_bound_volume`. -/
theorem new_ok_of_fields_present (cfg : List TickerJson)
    (h : ∀ j ∈ cfg, j.name.isSome ∧ j.upper_bound_price.isSome
          ∧ j.upper_bound_volume.isSome ∧ j.lower_bound_volume.isSome) :
    (QuoteGenerator.new cfg).isOk = true := by
  rw [QuoteGenerator.new]
  have hb := buildTickers_ok_of_fields_present cfg [] h
  cases hbt : buildTickers cfg [] with
  | ok v => rfl
  | error e => rw [hbt] at hb; simp [Except.isOk, Except.toBool] at hb

/-- Witness for `new_ok_of_fields_present` at the concrete configuration
`cfgBad` (which moreover violates the volume-bound ordering). -/
theorem new_ok_of_fields_present_witness :
    (QuoteGenerator.new cfgBad).isOk = true :=
  new_ok_of_fields_present cfgBad (by decide)

/-! ## Callback send failures: C3 -/

lemma handle_stops_at_first_failure :
    ∀ (need : List String) (sendOk : StockQuote → Bool)
      (pre : List StockQuote) (q : StockQuote) (rest : List StockQuote),
      (∀ p ∈ pre, need.contains p.ticker = true → sendOk p = true) →
      need.contains q.ticker = true → sendOk q = false →
      QuotesSender.handle need sendOk (pre ++ q :: rest)
        = (pre.filter (fun p => need.contains p.ticker), .error "send error") := by
  intro need sendOk pre
  induction pre with
  | nil =>
      intro q rest _ hq hfail
      rw [List.nil_append, QuotesSender.handle, hq, hfail]
      rfl
  | cons p ps ih =>
      intro q rest hpre hq hfail
      have hps : ∀ p' ∈ ps, need.contains p'.ticker = true → sendOk p' = true :=
        fun p' hp' => hpre p' (List.mem_cons_of_mem _ hp')
      cases hc : need.contains p.ticker with
      | true =>
          have hs : sendOk p = true := hpre p (List.mem_cons_self p ps) hc
          rw [List.cons_append, QuotesSender.handle, hc, hs,
            ih q rest hps hq hfail, List.filter_cons, hc]
          rfl
      | false =>
          rw [List.cons_append, QuotesSender.handle, hc,
            ih q rest hps hq hfail, List.filter_cons, hc]
          rfl

/-- C3 (counterexample to the claim as stated): with subscription
`["A", "B"]` and a transport in which only the send for ticker "A" fails,
the batch `[qA, qB]` stops at the failing first quote: `qB` is subscribed
and its send would succeed, yet it is never sent (`handle` returns the
error immediately with an empty sent-list). -/
theorem handle_send_failure_aborts_batch_cex :
    QuotesSender.handle ["A", "B"] sendFailOnlyA [qA, qB]
      = ([], .error "send error")
    ∧ List.contains ["A", "B"] qB.ticker = true
    ∧ sendFailOnlyA qB = true := ⟨rfl, rfl, rfl⟩

/-- C3 (amended): a send failure for one subscribed quote makes
`QuotesSender::handle` return that error immediately, so the remaining
quotes of the same batch are **not** sent (only the subscribed quotes
strictly before the failing one were); the failure nevertheless does not
terminate the generator worker, which discards the callback result and
continues looping. -/
theorem handle_abort_and_generator_continues (need : List String)
    (sendOk : StockQuote → Bool) (pre : List StockQuote) (q : StockQuote)
    (rest : List StockQuote)
    (hpre : ∀ p ∈ pre, need.contains p.ticker = true → sendOk p = true)
    (hq : need.contains q.ticker = true) (hfail : sendOk q = false) :
    QuotesSender.handle need sendOk (pre ++ q :: rest)
      = (pre.filter (fun p => need.contains p.ticker), .error "send error")
    ∧ (generator_callback_poll (.ok (need, sendOk)) (pre ++ q :: rest)).2
      = LoopAction.cont :=
  ⟨handle_stops_at_first_failure need sendOk pre q rest hpre hq hfail, rfl⟩

/-- Witness for `handle_abort_and_generator_continues`: the batch
`[qB, qA]` under the oracle failing only on "A" sends exactly `[qB]` and
errors, and the generator worker continues. -/
theorem handle_abort_and_generator_continues_witness :
    QuotesSender.handle ["A", "B"] sendFailOnlyA [qB, qA]
      = ([qB], .error "send error")
    ∧ (generator_callback_poll (.ok (["A", "B"], sendFailOnlyA)) [qB, qA]).2
      = LoopAction.cont := by
  have h := handle_abort_and_generator_continues ["A", "B"] sendFailOnlyA
    [qB] qA [] (by decide) (by decide) (by decide)
  simpa using h

/-! ## Command handler framing: C1 -/

/-- C1 (the code contradicts the claim): with the Handler in state
`WaitPack(8)` and only 3 bytes buffered, a `check_tcp_cmd` tick on which no
new stream bytes arrive finds `extract_chunk(8)` not ready — and instead of
staying in `WaitPack(8)` and polling again, the source logs
`Can't receive full packet` and `break`s, terminating the Handler
(`alive = false`), whatever the message decoder does. -/
theorem handler_waitpack_missing_bytes_breaks
    (dec : List Nat → Except Unit Msg) :
    (read_from_stream [1, 2, 3] []).length < 8
    ∧ (handlerTick dec (HandlerState.waitPack 8) [1, 2, 3] []).alive = false := by
  exact ⟨by decide, rfl⟩

/-- In contrast, the `WaitPackLen` state does stay on missing bytes: the
same tick with 3 buffered bytes and state `WaitPackLen` leaves the handler
alive and in `WaitPackLen` (this is the behaviour the claim describes,
implemented for the length prefix only). -/
theorem handler_waitpacklen_missing_bytes_stays
    (dec : List Nat → Except Unit Msg) :
    (handlerTick dec HandlerState.waitPackLen [1, 2, 3] []).alive = true
    ∧ (handlerTick dec HandlerState.waitPackLen [1, 2, 3] []).state
      = HandlerState.waitPackLen := ⟨rfl, rfl⟩

/-! ## Streamer emits nothing before a subscription: C8 -/

lemma streamer_stream_phase_no_quotes (s : StreamerSt) (outs : List StreamerOut)
    (se : Bool) (hs : s.cur_client_port = none)
    (houts : ∀ o ∈ outs, ∃ a, o = StreamerOut.pongTo a) :
    (streamer_stream_phase s outs se).1.cur_client_port = none
    ∧ ∀ o ∈ (streamer_stream_phase s outs se).2.1, ∃ a, o = StreamerOut.pongTo a := by
  cases se with
  | false => exact ⟨hs, by simpa [streamer_stream_phase] using houts⟩
  | true =>
      have hred : streamer_stream_phase s outs true = (s, outs, LoopAction.cont) := by
        rw [streamer_stream_phase]
        simp [hs]
      rw [hred]
      exact ⟨hs, houts⟩

lemma streamer_ping_phase_no_quotes (s : StreamerSt) (dg : Option (Msg × Nat))
    (se : Bool) (hs : s.cur_client_port = none) :
    (streamer_ping_phase s dg se).1.cur_client_port = none
    ∧ ∀ o ∈ (streamer_ping_phase s dg se).2.1, ∃ a, o = StreamerOut.pongTo a := by
  have hpong : ∀ (s2 : StreamerSt) (outs : List StreamerOut),
      s2.cur_client_port = none →
      (∀ o ∈ outs, ∃ a, o = StreamerOut.pongTo a) →
      (if PING_WAIT_TICKS ≤ s2.wait_ping_counter then (s2, outs, LoopAction.exit)
        else streamer_stream_phase s2 outs se).1.cur_client_port = none
      ∧ ∀ o ∈ (if PING_WAIT_TICKS ≤ s2.wait_ping_counter then
            (s2, outs, LoopAction.exit)
          else streamer_stream_phase s2 outs se).2.1,
          ∃ a, o = StreamerOut.pongTo a := by
    intro s2 outs hs2 houts
    by_cases h : PING_WAIT_TICKS ≤ s2.wait_ping_counter
    · rw [if_pos h]
      exact ⟨hs2, houts⟩
    · rw [if_neg h]
      exact streamer_stream_phase_no_quotes s2 outs se hs2 houts
  cases dg with
  | none =>
      rw [streamer_ping_phase]
      exact hpong _ [] hs (by simp)
  | some d =>
      obtain ⟨m, addr⟩ := d
      cases m with
      | ping =>
          rw [streamer_ping_phase]
          exact hpong _ [StreamerOut.pongTo addr] hs (by
            intro o ho
            rw [List.mem_singleton] at ho
            exact ⟨addr, ho⟩)
      | quote q => exact ⟨hs, by simp [streamer_ping_phase, check_ping]⟩
      | tickers p ts => exact ⟨hs, by simp [streamer_ping_phase, check_ping]⟩
      | pong => exact ⟨hs, by simp [streamer_ping_phase, check_ping]⟩
      | unknown => exact ⟨hs, by simp [streamer_ping_phase, check_ping]⟩

lemma streamerStep_no_quotes (st : StreamerSt) (inp : StreamerInput)
    (hport : st.cur_client_port = none)
    (hcmd : (match inp.cmdRead with
             | ChannelRead.ok (ControlCmd.quotes _ _) => false
             | _ => true) = true) :
    (streamerStep st inp).1.cur_client_port = none
    ∧ ∀ o ∈ (streamerStep st inp).2.1, ∃ a, o = StreamerOut.pongTo a := by
  obtain ⟨ce, cr, pe, dg, se⟩ := inp
  simp only at hcmd
  have hc1 : (if ce then streamer_handle_cmd st (cmd_from_channel cr)
        else (st, LoopAction.cont)).1.cur_client_port = none := by
    cases ce with
    | false => simpa using hport
    | true =>
        cases cr with
        | ok c =>
            cases c with
            | stop => simpa [cmd_from_channel, streamer_handle_cmd] using hport
            | quotes p ts => simp at hcmd
            | noop => simpa [cmd_from_channel, streamer_handle_cmd] using hport
        | empty => simpa [cmd_from_channel, streamer_handle_cmd] using hport
        | disconnected => simpa [cmd_from_channel, streamer_handle_cmd] using hport
  rw [streamerStep]
  simp only
  set c1 := if ce then streamer_handle_cmd st (cmd_from_channel cr)
      else (st, LoopAction.cont) with hc1def
  cases hact : c1.2 with
  | exit =>
      simp only
      exact ⟨hc1, by simp⟩
  | cont =>
      simp only
      cases pe with
      | false =>
          exact streamer_stream_phase_no_quotes c1.1 [] se hc1 (by simp)
      | true =>
          simp only [if_true]
          exact streamer_ping_phase_no_quotes c1.1 dg se hc1

lemma streamerRun_no_quotes :
    ∀ (inputs : List StreamerInput) (st : StreamerSt),
      st.cur_client_port = none → neverQuotes inputs = true →
      (streamerRun st inputs).1.cur_client_port = none
      ∧ ∀ o ∈ (streamerRun st inputs).2, ∃ a, o = StreamerOut.pongTo a := by
  intro inputs
  induction inputs with
  | nil =>
      intro st hport _
      exact ⟨hport, by simp [streamerRun]⟩
  | cons inp rest ih =>
      intro st hport hnq
      rw [neverQuotes, List.all_cons, Bool.and_eq_true] at hnq
      obtain ⟨hnq1, hnqrest⟩ := hnq
      have hstep := streamerStep_no_quotes st inp hport hnq1
      rw [streamerRun]
      cases hact : (streamerStep st inp).2.2 with
      | exit =>
          exact ⟨hstep.1, hstep.2⟩
      | cont =>
          have ihr := ih (streamerStep st inp).1 hstep.1 hnqrest
          refine ⟨ihr.1, ?_⟩
          intro o ho
          simp only [List.mem_append] at ho
          rcases ho with ho | ho
          · exact hstep.2 o ho
          · exact ihr.2 o ho

/-- C8 (counterexample to the claim as stated): a Streamer that has never
received a `Quotes` command still sends a datagram on its UDP socket: on a
`check_ping` tick with a `Ping` waiting from address 7 it answers with a
`Pong` datagram. -/
theorem streamer_pong_without_quotes_cex :
    neverQuotes [pingOnlyInput] = true
    ∧ (streamerRun streamerInit [pingOnlyInput]).2 = [StreamerOut.pongTo 7] :=
  ⟨rfl, rfl⟩

/-- C8 (amended): a Streamer that never receives a `Quotes` command keeps
`cur_client_port = none` and never submits a callback to the generator, so
no quote datagram is ever sent on its behalf; the only datagrams it can
emit are `Pong` replies to received `Ping`s on `check_ping` ticks. -/
theorem streamer_no_quotes_no_quote_datagrams (inputs : List StreamerInput)
    (h : neverQuotes inputs = true) :
    (streamerRun streamerInit inputs).1.cur_client_port = none
    ∧ ∀ o ∈ (streamerRun streamerInit inputs).2, ∃ a, o = StreamerOut.pongTo a :=
  streamerRun_no_quotes inputs streamerInit rfl h

/-- Witness for `streamer_no_quotes_no_quote_datagrams` on the one-tick run
whose only traffic is an incoming `Ping`. -/
theorem streamer_no_quotes_no_quote_datagrams_witness :
    (streamerRun streamerInit [pingOnlyInput]).1.cur_client_port = none
    ∧ ∀ o ∈ (streamerRun streamerInit [pingOnlyInput]).2,
        ∃ a, o = StreamerOut.pongTo a :=
  streamer_no_quotes_no_quote_datagrams [pingOnlyInput] rfl

/-! ## Generator bounds and timestamps: C5, C6 -/

lemma clamp_bounds (hi x : ℚ) (hhi : 0 ≤ hi) :
    0 ≤ (if hi < (if x < 0 then 0 else x) then hi else (if x < 0 then 0 else x))
    ∧ (if hi < (if x < 0 then 0 else x) then hi else (if x < 0 then 0 else x)) ≤ hi := by
  by_cases hA : x < 0
  · rw [if_pos hA]
    by_cases hB : hi < (0 : ℚ)
    · rw [if_pos hB]
      exact ⟨hhi, le_refl hi⟩
    · rw [if_neg hB]
      exact ⟨le_refl 0, hhi⟩
  · rw [if_neg hA]
    by_cases hB : hi < x
    · rw [if_pos hB]
      exact ⟨hhi, le_refl hi⟩
    · rw [if_neg hB]
      exact ⟨le_of_not_lt hA, le_of_not_lt hB⟩

lemma quoteStep_bounds (name : String) (tk : Ticker) (p : ℚ) (v ts : Nat)
    (hlv : tk.lower_bound_volume < tk.upper_bound_volume)
    (huv : tk.upper_bound_volume ≤ U32_MOD)
    (h0 : 0 ≤ tk.current_price) (h1 : tk.current_price ≤ tk.upper_bound_price) :
    0 ≤ (quoteStep name tk p v ts).1.price
    ∧ (quoteStep name tk p v ts).1.price ≤ tk.upper_bound_price
    ∧ tk.lower_bound_volume ≤ (quoteStep name tk p v ts).1.volume
    ∧ (quoteStep name tk p v ts).1.volume < tk.upper_bound_volume
    ∧ 0 ≤ (quoteStep name tk p v ts).2.current_price
    ∧ (quoteStep name tk p v ts).2.current_price
        ≤ (quoteStep name tk p v ts).2.upper_bound_price := by
  have hub : (0 : ℚ) ≤ tk.upper_bound_price := le_trans h0 h1
  have hvr : tk.volume_range = tk.upper_bound_volume - tk.lower_bound_volume := rfl
  have hrange : 0 < tk.volume_range := by omega
  have hmod : v % tk.volume_range < tk.volume_range := Nat.mod_lt _ hrange
  have hvlt : v % tk.volume_range + tk.lower_bound_volume < tk.upper_bound_volume := by
    omega
  have hvol : (quoteStep name tk p v ts).1.volume
      = v % tk.volume_range + tk.lower_bound_volume := by
    rw [quoteStep]
    exact Nat.mod_eq_of_lt (lt_of_lt_of_le hvlt huv)
  have hprice : (quoteStep name tk p v ts).1.price
      = (quoteStep name tk p v ts).2.current_price := rfl
  have hpub : (quoteStep name tk p v ts).2.upper_bound_price
      = tk.upper_bound_price := rfl
  have hpe : (quoteStep name tk p v ts).1.price
      = (if tk.upper_bound_price
            < (if tk.current_price + tk.price_range / 64 * p < 0 then 0
               else tk.current_price + tk.price_range / 64 * p)
         then tk.upper_bound_price
         else (if tk.current_price + tk.price_range / 64 * p < 0 then 0
               else tk.current_price + tk.price_range / 64 * p)) := rfl
  have hclamp := clamp_bounds tk.upper_bound_price
    (tk.current_price + tk.price_range / 64 * p) hub
  have hp0 : 0 ≤ (quoteStep name tk p v ts).1.price := by
    rw [hpe]
    exact hclamp.1
  have hp1 : (quoteStep name tk p v ts).1.price ≤ tk.upper_bound_price := by
    rw [hpe]
    exact hclamp.2
  refine ⟨hp0, hp1, ?_, ?_, ?_, ?_⟩
  · rw [hvol]; omega
  · rw [hvol]; exact hvlt
  · rw [← hprice]; exact hp0
  · rw [hpub, ← hprice]; exact hp1

lemma genGo_zip_bounds :
    ∀ (l : List (String × Ticker)) (draws : Nat → ℚ × Nat) (ts i : Nat)
      (x : (String × Ticker) × (StockQuote × (String × Ticker))),
      x ∈ l.zip ((genGo l draws ts i).1.zip (genGo l draws ts i).2) →
      x.1.2.lower_bound_volume < x.1.2.upper_bound_volume →
      x.1.2.upper_bound_volume ≤ U32_MOD →
      0 ≤ x.1.2.current_price →
      x.1.2.current_price ≤ x.1.2.upper_bound_price →
      0 ≤ x.2.1.price ∧ x.2.1.price ≤ x.1.2.upper_bound_price
      ∧ x.1.2.lower_bound_volume ≤ x.2.1.volume
      ∧ x.2.1.volume < x.1.2.upper_bound_volume
      ∧ 0 ≤ x.2.2.2.current_price
      ∧ x.2.2.2.current_price ≤ x.2.2.2.upper_bound_price := by
  intro l
  induction l with
  | nil =>
      intro draws ts i x hx
      simp [genGo] at hx
  | cons hd tl ih =>
      intro draws ts i x hx
      obtain ⟨n, tk⟩ := hd
      rw [genGo] at hx
      simp only [List.zip_cons_cons, List.mem_cons] at hx
      rcases hx with hx | hx
      · subst hx
        intro hlv huv h0 h1
        simp only at hlv huv h0 h1 ⊢
        exact quoteStep_bounds n tk (draws i).1 (draws i).2 ts hlv huv h0 h1
      · exact ih draws ts (i + 1) x hx

/-- C5: for every ticker `T` of the generator with
`lower_bound_volume < upper_bound_volume` (a `u32` bound, hence
`≤ 2^32`) and `0 ≤ current_price ≤ upper_bound_price`, the quote `q`
produced for `T` by `generate_quotes` satisfies
`0 ≤ q.price ≤ T.upper_bound_price` and
`T.lower_bound_volume ≤ q.volume < T.upper_bound_volume`, and `T`'s
updated `current_price` again satisfies the clamp invariant
`0 ≤ current_price ≤ upper_bound_price`. `x` ranges over the
(original ticker, (quote, updated ticker)) triples of one generation
step. -/
theorem generate_quotes_bounds (g : QGen) (draws : Nat → ℚ × Nat)
    (x : (String × Ticker) × (StockQuote × (String × Ticker)))
    (hx : x ∈ g.tickers.zip ((g.generate_quotes draws).1.zip
            (g.generate_quotes draws).2.tickers))
    (hlv : x.1.2.lower_bound_volume < x.1.2.upper_bound_volume)
    (huv : x.1.2.upper_bound_volume ≤ U32_MOD)
    (h0 : 0 ≤ x.1.2.current_price)
    (h1 : x.1.2.current_price ≤ x.1.2.upper_bound_price) :
    0 ≤ x.2.1.price ∧ x.2.1.price ≤ x.1.2.upper_bound_price
    ∧ x.1.2.lower_bound_volume ≤ x.2.1.volume
    ∧ x.2.1.volume < x.1.2.upper_bound_volume
    ∧ 0 ≤ x.2.2.2.current_price
    ∧ x.2.2.2.current_price ≤ x.2.2.2.upper_bound_price :=
  genGo_zip_bounds g.tickers draws g.timestamp_counter 0 x hx hlv huv h0 h1

/-- Witness for `generate_quotes_bounds` on the one-ticker generator `g0`
with draws `(0, 7)`. -/
theorem generate_quotes_bounds_witness :
    0 ≤ x0.2.1.price ∧ x0.2.1.price ≤ x0.1.2.upper_bound_price
    ∧ x0.1.2.lower_bound_volume ≤ x0.2.1.volume
    ∧ x0.2.1.volume < x0.1.2.upper_bound_volume
    ∧ 0 ≤ x0.2.2.2.current_price
    ∧ x0.2.2.2.current_price ≤ x0.2.2.2.upper_bound_price :=
  generate_quotes_bounds g0 draws0 x0
    (by
      rw [show (g0.generate_quotes draws0).1 = [x0.2.1] from by
            norm_num [g0, draws0, x0, QGen.generate_quotes, genGo, quoteStep,
              Ticker.price_range, Ticker.volume_range, U32_MOD],
        show (g0.generate_quotes draws0).2.tickers = [x0.2.2] from by
            norm_num [g0, draws0, x0, QGen.generate_quotes, genGo, quoteStep,
              Ticker.price_range, Ticker.volume_range, U32_MOD]]
      rw [show g0.tickers = [x0.1] from rfl]
      simp)
    (by norm_num [x0]) (by norm_num [x0, U32_MOD]) (by norm_num [x0])
    (by norm_num [x0])

lemma genGo_timestamp :
    ∀ (l : List (String × Ticker)) (draws : Nat → ℚ × Nat) (ts i : Nat)
      (q : StockQuote), q ∈ (genGo l draws ts i).1 → q.timestamp = ts := by
  intro l
  induction l with
  | nil =>
      intro draws ts i q hq
      simp [genGo] at hq
  | cons hd tl ih =>
      intro draws ts i q hq
      obtain ⟨n, tk⟩ := hd
      rw [genGo] at hq
      simp only [List.mem_cons] at hq
      rcases hq with hq | hq
      · subst hq; rfl
      · exact ih draws ts (i + 1) q hq

/-- C6: every quote of one `generate_quotes` batch carries the shared
`timestamp_counter`; the counter is incremented exactly once at the end of
the batch; hence any quote of the next batch has a strictly larger
timestamp. -/
theorem generate_quotes_timestamps (g : QGen) (d d' : Nat → ℚ × Nat)
    (q q' : StockQuote)
    (hq : q ∈ (g.generate_quotes d).1)
    (hq' : q' ∈ ((g.generate_quotes d).2.generate_quotes d').1) :
    q.timestamp = g.timestamp_counter
    ∧ (g.generate_quotes d).2.timestamp_counter = g.timestamp_counter + 1
    ∧ q.timestamp < q'.timestamp := by
  have h1 : q.timestamp = g.timestamp_counter :=
    genGo_timestamp g.tickers d g.timestamp_counter 0 q hq
  have h2 : (g.generate_quotes d).2.timestamp_counter = g.timestamp_counter + 1 := rfl
  have h3 : q'.timestamp = g.timestamp_counter + 1 := by
    have := genGo_timestamp (g.generate_quotes d).2.tickers d'
      (g.generate_quotes d).2.timestamp_counter 0 q' hq'
    rw [this, h2]
  exact ⟨h1, h2, by omega⟩

/-- Witness for `generate_quotes_timestamps`: in two successive batches of
`g0` the quotes are stamped 1 and then 2. -/
theorem generate_quotes_timestamps_witness :
    (x0.2.1.timestamp = g0.timestamp_counter
    ∧ (g0.generate_quotes draws0).2.timestamp_counter = g0.timestamp_counter + 1
    ∧ x0.2.1.timestamp < ({ x0.2.1 with timestamp := 2 } : StockQuote).timestamp) :=
  generate_quotes_timestamps g0 draws0 draws0 x0.2.1
    ({ x0.2.1 with timestamp := 2 })
    (by
      rw [show (g0.generate_quotes draws0).1 = [x0.2.1] from by
            norm_num [g0, draws0, x0, QGen.generate_quotes, genGo, quoteStep,
              Ticker.price_range, Ticker.volume_range, U32_MOD]]
      simp)
    (by
      rw [show ((g0.generate_quotes draws0).2.generate_quotes draws0).1
            = [({ x0.2.1 with timestamp := 2 } : StockQuote)] from by
            norm_num [g0, draws0, x0, QGen.generate_quotes, genGo, quoteStep,
              Ticker.price_range, Ticker.volume_range, U32_MOD]]
      simp)

end StreamingQuotes
